import Mathlib

/-!
Verification of `Solid/StochasticHillClimb.py`.

The engine is shallowly embedded as pure Lean functions.  Python floats are
modelled by `ℚ`, and the sentinel `float('-inf')` used for `best_objective`
by `⊥` in `WithBot ℚ` (during a run `best_objective` only ever holds
`float('-inf')` or the result of an `_objective` call, so `WithBot ℚ` covers
every value it can take; in particular it is never `None`).  States are an
opaque type parameter `S`.

Randomness and the abstract problem-model methods (`_neighbor`, `_random`,
and the random draw consumed by `_accept_neighbor`) are modelled as oracle
functions indexed by the call position, so a single Lean function captures
every possible interaction of the engine with its problem model and its
random source.  The Boolean oracle `accept` stands for the complete outcome
of `_accept_neighbor` (which compares `exp(-(obj cur - obj nb)/temp)` with 1
and with a uniform draw); theorems that depend on its guaranteed-accept
behaviour take the corresponding hypothesis, which the real test satisfies
(proved separately on the real-valued model of `_accept_neighbor`).

The engine's evaluation trace is recorded alongside the run: each entry
holds the list of `_objective` results observed while one seeding item or
one climbing iteration was processed, together with the value of
`best_objective` once that item finished.
-/

namespace StochasticHillClimb

/-- Python truthiness fallback `b or 0` applied to the float
`best_objective` (lines 163 and 167 of the source): a float is falsy
exactly when it is `0.0`, in which case the expression yields the int `0`;
`float('-inf')` and every nonzero float are truthy and pass through. -/
def pyOr0 (b : WithBot ℚ) : WithBot ℚ :=
  if b = ((0 : ℚ) : WithBot ℚ) then ((0 : ℚ) : WithBot ℚ) else b

/-- The best-update comparison of line 163:
`self._objective(self.current_state) > (self.best_objective or 0)`. -/
def bestUpdateTest (q : ℚ) (b : WithBot ℚ) : Bool :=
  decide (((q : ℚ) : WithBot ℚ) > pyOr0 b)

/-- The early-termination comparison of line 167:
`self.max_objective is not None and (self.best_objective or 0) > self.max_objective`. -/
def targetTest (maxObj : Option ℚ) (b : WithBot ℚ) : Bool :=
  match maxObj with
  | some m => decide (pyOr0 b > ((m : ℚ) : WithBot ℚ))
  | none => false

/-- The constructor arguments kept by a validated engine instance
(`initial_state`, `temp`, `max_steps`, `max_objective`, `n_samples`,
`points_to_evaluate`). -/
structure Params (S : Type) where
  initial_state : S
  temp : ℚ
  max_steps : ℤ
  max_objective : Option ℚ
  n_samples : ℤ
  points_to_evaluate : List S

/-- The problem model together with the run's random choices: `objective`
is the deterministic `_objective`; `neighbor i s` is the state `_neighbor`
returns at climbing iteration `i` when the current state is `s`;
`randomState n` is the state the `n`-th `_random()` call returns; and
`accept i cur nb` is the Boolean outcome of `_accept_neighbor(nb)` at
iteration `i` (absorbing the uniform draw it consumes). -/
structure Oracles (S : Type) where
  objective : S → ℚ
  neighbor : ℕ → S → S
  randomState : ℕ → S
  accept : ℕ → S → S → Bool

/-- Which of the two terminal prints/returns of `run` fired:
`TERMINATING - REACHED MAXIMUM OBJECTIVE` (line 168) or
`TERMINATING - REACHED MAXIMUM STEPS` (line 170). -/
inductive Outcome where
  | reachedMaxObjective : Outcome
  | reachedMaxSteps : Outcome
deriving DecidableEq, Repr

/-- One trace entry: the `_objective` results observed while one seeding
item or one climbing iteration was processed, and `best_objective` after
that item finished. -/
abbrev TraceEnt : Type := List ℚ × WithBot ℚ

/-- The mutable search state during the seeding phase (step counter is
still 0 there): `current_state`, `current_objective`, `best_state`,
`best_objective` as set by `_clear` and line 128. -/
structure SeedSt (S : Type) where
  current_state : Option S
  current_objective : WithBot ℚ
  best_state : Option S
  best_objective : WithBot ℚ
deriving DecidableEq

/-- The body shared by the two comparing seed loops (lines 132-137 and
140-146): set the point as current state, evaluate it, and record it as
best when strictly better.  Note line 136 stores `self.current_state`
itself (a reference), with no copy. -/
def seedStep {S : Type} (objective : S → ℚ) (st : SeedSt S) (point : S) :
    SeedSt S × TraceEnt :=
  let co : ℚ := objective point
  if ((co : ℚ) : WithBot ℚ) > st.best_objective then
    (⟨some point, ((co : ℚ) : WithBot ℚ), some point, ((co : ℚ) : WithBot ℚ)⟩,
      ([co], ((co : ℚ) : WithBot ℚ)))
  else
    (⟨some point, ((co : ℚ) : WithBot ℚ), st.best_state, st.best_objective⟩,
      ([co], st.best_objective))

/-- The seed-points loop of lines 131-137: fold `seedStep` over
`points_to_evaluate` in list order, collecting the trace. -/
def seedLoop {S : Type} (objective : S → ℚ) :
    List S → SeedSt S → SeedSt S × List TraceEnt
  | [], st => (st, [])
  | p :: ps, st =>
    let r1 := seedStep objective st p
    let r2 := seedLoop objective ps r1.1
    (r2.1, r1.2 :: r2.2)

/-- The sampling loop of lines 139-146: `while n < self.n_samples` drawing
`_random()` each time; `fuel` is the remaining iteration count and `n` the
index of the next `_random()` call. -/
def sampleLoop {S : Type} (objective : S → ℚ) (randomState : ℕ → S) :
    ℕ → ℕ → SeedSt S → SeedSt S × List TraceEnt
  | 0, _, st => (st, [])
  | fuel + 1, n, st =>
    let r1 := seedStep objective st (randomState n)
    let r2 := sampleLoop objective randomState fuel (n + 1) r1.1
    (r2.1, r1.2 :: r2.2)

/-- The default seeding path of lines 147-149 (`n_samples == 1`, no seed
points): adopt the configured initial state and unconditionally overwrite
`best_objective` with its objective.  `best_state` and
`current_objective` are not touched on this path. -/
def seedDefault {S : Type} (objective : S → ℚ) (initial : S) (st : SeedSt S) :
    SeedSt S × List TraceEnt :=
  let co : ℚ := objective initial
  (⟨some initial, st.current_objective, st.best_state, ((co : ℚ) : WithBot ℚ)⟩,
    [([co], ((co : ℚ) : WithBot ℚ))])

/-- The whole seeding phase (lines 126-149): `_clear`, line 128, then the
three mutually exclusive branches in source order. -/
def seedPhase {S : Type} (P : Params S) (O : Oracles S) :
    SeedSt S × List TraceEnt :=
  let st0 : SeedSt S := ⟨none, ⊥, none, ⊥⟩
  if P.points_to_evaluate.length > 0 then
    seedLoop O.objective P.points_to_evaluate st0
  else if P.n_samples > 1 then
    sampleLoop O.objective O.randomState P.n_samples.toNat 0 st0
  else
    seedDefault O.objective P.initial_state st0

/-- Result of the climbing loop: final `current_state`, `best_state`,
`best_objective`, the step counter, the trace of its iterations, and which
terminal return fired. -/
structure ClimbRes (S : Type) where
  current_state : S
  best_state : Option S
  best_objective : WithBot ℚ
  cur_steps : ℕ
  trace : List TraceEnt
  outcome : Outcome
deriving DecidableEq

/-- State after one climbing iteration's body (lines 158-165), before the
early-termination check: the new current state, best state, best
objective, and the iteration's trace entry. -/
structure ClimbStepRes (S : Type) where
  current_state : S
  best_state : Option S
  best_objective : WithBot ℚ
  entry : TraceEnt
deriving DecidableEq

/-- One climbing iteration's body (lines 158-165): draw a neighbor,
replace the current state when `_accept_neighbor` accepts, update the
best via `bestUpdateTest`.  The observed objective values collected in
the trace entry are `_objective(current)` and `_objective(neighbor)`
inside the acceptance test (line 111), `_objective(current)` again at
line 163, and once more at line 164 when the best is updated; in the pure
model `deepcopy` (line 165) is the identity on values. -/
def climbStep {S : Type} (O : Oracles S) (i : ℕ) (cur : S) (bst : Option S)
    (bobj : WithBot ℚ) : ClimbStepRes S :=
  let nb := O.neighbor i cur
  let cur1 := if O.accept i cur nb then nb else cur
  let oCur := O.objective cur
  let oNb := O.objective nb
  let oNew := O.objective cur1
  let upd := bestUpdateTest oNew bobj
  let bobj1 := if upd then ((oNew : ℚ) : WithBot ℚ) else bobj
  let bst1 := if upd then some cur1 else bst
  let group : List ℚ := if upd then [oCur, oNb, oNew, oNew] else [oCur, oNb, oNew]
  ⟨cur1, bst1, bobj1, (group, bobj1)⟩

/-- The climbing loop of lines 153-169.  `fuel` is the remaining number of
iterations of `range(self.max_steps - self.n_samples - len(self.points_to_evaluate))`,
`i` the current loop index.  Per iteration: increment the step counter,
run the iteration body `climbStep`, and terminate early when `targetTest`
fires (line 167). -/
def climbLoop {S : Type} (O : Oracles S) (maxObj : Option ℚ) :
    ℕ → ℕ → S → Option S → WithBot ℚ → ℕ → ClimbRes S
  | 0, _, cur, bst, bobj, steps => ⟨cur, bst, bobj, steps, [], .reachedMaxSteps⟩
  | fuel + 1, i, cur, bst, bobj, steps =>
    let s := climbStep O i cur bst bobj
    if targetTest maxObj s.best_objective then
      ⟨s.current_state, s.best_state, s.best_objective, steps + 1, [s.entry],
        .reachedMaxObjective⟩
    else
      let rest := climbLoop O maxObj fuel (i + 1) s.current_state s.best_state
        s.best_objective (steps + 1)
      ⟨rest.current_state, rest.best_state, rest.best_objective, rest.cur_steps,
        s.entry :: rest.trace, rest.outcome⟩

/-- Number of climbing iterations:
`range(self.max_steps - self.n_samples - len(self.points_to_evaluate))`
is empty when the difference is zero or negative. -/
def climbBudget {S : Type} (P : Params S) : ℕ :=
  (P.max_steps - P.n_samples - (P.points_to_evaluate.length : ℤ)).toNat

/-- What `run` leaves behind: the returned pair (`best_state`,
`best_objective`), the final `current_state` and step counter, the
evaluation trace, and which terminal return fired. -/
structure RunResult (S : Type) where
  best_state : Option S
  best_objective : WithBot ℚ
  current_state : Option S
  cur_steps : ℕ
  trace : List TraceEnt
  outcome : Outcome
deriving DecidableEq

/-- `run` (lines 119-171): seeding phase followed by the climbing loop.
Every branch of the seeding phase sets `current_state`, so the `none`
branch of the match below is dead code (proved in
`seedPhase_current_state_some`); it mirrors what the state would be if the
climbing loop were entered with no current state. -/
def run {S : Type} (P : Params S) (O : Oracles S) : RunResult S :=
  let seeded := seedPhase P O
  match seeded.1.current_state with
  | none => ⟨seeded.1.best_state, seeded.1.best_objective, none, 0, seeded.2, .reachedMaxSteps⟩
  | some cur =>
    let r := climbLoop O P.max_objective (climbBudget P) 0 cur
      seeded.1.best_state seeded.1.best_objective 0
    ⟨r.best_state, r.best_objective, some r.current_state, r.cur_steps,
      seeded.2 ++ r.trace, r.outcome⟩

/-- Best-update comparison as the spec words it, without the `or 0`
truthiness fallback: compare directly against `best_objective`. -/
def bestUpdateTestDirect (q : ℚ) (b : WithBot ℚ) : Bool :=
  decide (((q : ℚ) : WithBot ℚ) > b)

/-- Early-termination comparison as the spec words it, without the `or 0`
truthiness fallback. -/
def targetTestDirect (maxObj : Option ℚ) (b : WithBot ℚ) : Bool :=
  match maxObj with
  | some m => decide (b > ((m : ℚ) : WithBot ℚ))
  | none => false

/-- One climbing iteration's body with the direct best-update comparison;
everything else is as in `climbStep`. -/
def climbStepDirect {S : Type} (O : Oracles S) (i : ℕ) (cur : S) (bst : Option S)
    (bobj : WithBot ℚ) : ClimbStepRes S :=
  let nb := O.neighbor i cur
  let cur1 := if O.accept i cur nb then nb else cur
  let oCur := O.objective cur
  let oNb := O.objective nb
  let oNew := O.objective cur1
  let upd := bestUpdateTestDirect oNew bobj
  let bobj1 := if upd then ((oNew : ℚ) : WithBot ℚ) else bobj
  let bst1 := if upd then some cur1 else bst
  let group : List ℚ := if upd then [oCur, oNb, oNew, oNew] else [oCur, oNb, oNew]
  ⟨cur1, bst1, bobj1, (group, bobj1)⟩

/-- The climbing loop with the two fallback comparisons replaced by the
direct ones; everything else is as in `climbLoop`. -/
def climbLoopDirect {S : Type} (O : Oracles S) (maxObj : Option ℚ) :
    ℕ → ℕ → S → Option S → WithBot ℚ → ℕ → ClimbRes S
  | 0, _, cur, bst, bobj, steps => ⟨cur, bst, bobj, steps, [], .reachedMaxSteps⟩
  | fuel + 1, i, cur, bst, bobj, steps =>
    let s := climbStepDirect O i cur bst bobj
    if targetTestDirect maxObj s.best_objective then
      ⟨s.current_state, s.best_state, s.best_objective, steps + 1, [s.entry],
        .reachedMaxObjective⟩
    else
      let rest := climbLoopDirect O maxObj fuel (i + 1) s.current_state s.best_state
        s.best_objective (steps + 1)
      ⟨rest.current_state, rest.best_state, rest.best_objective, rest.cur_steps,
        s.entry :: rest.trace, rest.outcome⟩

/-- `run` as the spec words the climbing-phase comparisons (direct, no
truthiness fallback); the seeding phase is unchanged. -/
def runSpecDirect {S : Type} (P : Params S) (O : Oracles S) : RunResult S :=
  let seeded := seedPhase P O
  match seeded.1.current_state with
  | none => ⟨seeded.1.best_state, seeded.1.best_objective, none, 0, seeded.2, .reachedMaxSteps⟩
  | some cur =>
    let r := climbLoopDirect O P.max_objective (climbBudget P) 0 cur
      seeded.1.best_state seeded.1.best_objective 0
    ⟨r.best_state, r.best_objective, some r.current_state, r.cur_steps,
      seeded.2 ++ r.trace, r.outcome⟩

/-- Python values as they matter to the constructor's `isinstance` checks
(lines 37-51): ints, floats, `None`, and a representative non-numeric
value (a string). -/
inductive PyVal where
  | pint : ℤ → PyVal
  | pfloat : ℚ → PyVal
  | pnone : PyVal
  | pstr : String → PyVal
deriving DecidableEq

/-- Python `isinstance(x, (float, int))`. -/
def PyVal.isNumeric : PyVal → Bool
  | .pint _ => true
  | .pfloat _ => true
  | _ => false

/-- Python `float(x)` on a numeric value (0 as junk elsewhere; only
applied after an `isNumeric` check, mirroring the source). -/
def PyVal.pyFloat : PyVal → ℚ
  | .pint n => (n : ℚ)
  | .pfloat q => q
  | _ => 0

/-- The three `ValueError`s the constructor can raise (the spec's
`ConfigurationError` taxonomy). -/
inductive ConfigError where
  | maxStepsNotPositiveInt : ConfigError
  | maxObjectiveNotNumeric : ConfigError
  | tempNotNumeric : ConfigError
deriving DecidableEq

/-- The configuration stored by a successfully constructed engine. -/
structure HCConfig (S : Type) where
  initial_state : S
  n_samples : ℤ
  points_to_evaluate : List S
  max_steps : ℤ
  max_objective : Option ℚ
  temp : ℚ
deriving DecidableEq

/-- The constructor `__init__` (lines 25-51): store `initial_state`,
`n_samples` and `points_to_evaluate` unchecked, then validate `max_steps`
(positive int), then `max_objective` (numeric when not `None`, coerced to
float), then `temp` (numeric, coerced to float), raising in that order. -/
def hcInit {S : Type} (initial_state : S) (temp max_steps max_objective : PyVal)
    (n_samples : ℤ) (points_to_evaluate : List S) :
    Except ConfigError (HCConfig S) :=
  match max_steps with
  | PyVal.pint n =>
    if 0 < n then
      match max_objective with
      | PyVal.pnone =>
        if temp.isNumeric then
          Except.ok ⟨initial_state, n_samples, points_to_evaluate, n, none, temp.pyFloat⟩
        else Except.error ConfigError.tempNotNumeric
      | mo =>
        if mo.isNumeric then
          if temp.isNumeric then
            Except.ok ⟨initial_state, n_samples, points_to_evaluate, n, some mo.pyFloat, temp.pyFloat⟩
          else Except.error ConfigError.tempNotNumeric
        else Except.error ConfigError.maxObjectiveNotNumeric
    else Except.error ConfigError.maxStepsNotPositiveInt
  | _ => Except.error ConfigError.maxStepsNotPositiveInt

/-- The acceptance test `_accept_neighbor` (lines 102-117) on its
non-overflowing path, over exact reals:
`p = exp(-(objective(current) - objective(neighbor)) / temp)`, then
`True if p >= 1 else p >= random()`, with `draw` the uniform sample
`random()` would produce. -/
def acceptsNeighbor (objCur objNb temp draw : ℝ) : Prop :=
  let p := Real.exp (-(objCur - objNb) / temp)
  1 ≤ p ∨ (¬ 1 ≤ p ∧ draw ≤ p)

/-- Supremum of a list of observed objective values, `⊥` for the empty
list (the `float('-inf')` a run starts from). -/
def listSup (l : List ℚ) : WithBot ℚ :=
  l.foldr (fun q a => max ((q : ℚ) : WithBot ℚ) a) ⊥

/-- Fold the values of one trace group on top of a previous best. -/
def groupMax (b : WithBot ℚ) (g : List ℚ) : WithBot ℚ :=
  g.foldr (fun q a => max ((q : ℚ) : WithBot ℚ) a) b

/-- A trace is max-consistent from starting best `b`: every entry's
recorded best equals the previous best joined with that entry's observed
values. -/
def traceFold : WithBot ℚ → List TraceEnt → Prop
  | _, [] => True
  | b, e :: rest => e.2 = groupMax b e.1 ∧ traceFold e.2 rest

/-- All objective values observed in the first `k + 1` trace entries. -/
def obsUpTo (tr : List TraceEnt) (k : ℕ) : List ℚ :=
  ((tr.take (k + 1)).map Prod.fst).flatten

/-- The best value recorded by the last entry of a trace, the starting
best for the empty trace. -/
def lastBest (b : WithBot ℚ) : List TraceEnt → WithBot ℚ
  | [] => b
  | e :: rest => lastBest e.2 rest

/-- Python exceptions as the engine distinguishes them: `OverflowError`
(the only class named in an `except` clause, line 115), the
`ZeroDivisionError` the division of line 111 raises when `temp` is zero
(which that `except` clause does NOT catch), and everything else a
problem model might raise. -/
inductive PyExc where
  | overflowError : PyExc
  | zeroDivisionError : PyExc
  | otherExc : ℕ → PyExc
deriving DecidableEq

/-- Problem-model operations that may raise, together with the float
behaviour of the acceptance computation: `expOverflows e` says whether
`math.exp` raises `OverflowError` at exponent `e` (an abstract predicate
standing for the float overflow cutoff), and `decision i e` is the Boolean
the comparisons `p >= 1` / `p >= random()` produce at climbing iteration
`i` when `exp` did not overflow. -/
structure OraclesE (S : Type) where
  objectiveE : S → Except PyExc ℚ
  neighborE : ℕ → S → Except PyExc S
  randomE : ℕ → Except PyExc S
  expOverflows : ℚ → Bool
  decision : ℕ → ℚ → Bool

/-- `_accept_neighbor` (lines 102-117) with exceptions: the `try` block
evaluates `objective(current)`, then `objective(neighbor)`, then divides
the negated difference by `temp` — which in Python raises
`ZeroDivisionError` when `temp == 0` — and then applies `exp`.  An
`OverflowError` raised anywhere inside the block is caught and turned
into `return True`; every other exception, including that
`ZeroDivisionError`, propagates unmodified (line 115 names only
`OverflowError`). -/
def acceptNeighborE {S : Type} (objectiveE : S → Except PyExc ℚ) (temp : ℚ)
    (expOverflows : ℚ → Bool) (decision : ℚ → Bool) (cur nb : S) :
    Except PyExc Bool :=
  let body : Except PyExc Bool :=
    match objectiveE cur with
    | Except.error e => Except.error e
    | Except.ok oCur =>
      match objectiveE nb with
      | Except.error e => Except.error e
      | Except.ok oNb =>
        if temp = 0 then Except.error PyExc.zeroDivisionError
        else
          let ex := -(oCur - oNb) / temp
          if expOverflows ex then Except.error PyExc.overflowError
          else Except.ok (decision ex)
  match body with
  | Except.error PyExc.overflowError => Except.ok true
  | r => r

/-- `seedStep` when `_objective` may raise: the exception of the single
evaluation propagates. -/
def seedStepE {S : Type} (objectiveE : S → Except PyExc ℚ) (st : SeedSt S) (point : S) :
    Except PyExc (SeedSt S) :=
  match objectiveE point with
  | Except.error e => Except.error e
  | Except.ok co =>
    if ((co : ℚ) : WithBot ℚ) > st.best_objective then
      Except.ok ⟨some point, ((co : ℚ) : WithBot ℚ), some point, ((co : ℚ) : WithBot ℚ)⟩
    else
      Except.ok ⟨some point, ((co : ℚ) : WithBot ℚ), st.best_state, st.best_objective⟩

/-- The seed-points loop with exceptions. -/
def seedLoopE {S : Type} (objectiveE : S → Except PyExc ℚ) :
    List S → SeedSt S → Except PyExc (SeedSt S)
  | [], st => Except.ok st
  | p :: ps, st =>
    match seedStepE objectiveE st p with
    | Except.error e => Except.error e
    | Except.ok st1 => seedLoopE objectiveE ps st1

/-- The sampling loop with exceptions (`_random` then `_objective` each
iteration). -/
def sampleLoopE {S : Type} (objectiveE : S → Except PyExc ℚ)
    (randomE : ℕ → Except PyExc S) :
    ℕ → ℕ → SeedSt S → Except PyExc (SeedSt S)
  | 0, _, st => Except.ok st
  | fuel + 1, n, st =>
    match randomE n with
    | Except.error e => Except.error e
    | Except.ok point =>
      match seedStepE objectiveE st point with
      | Except.error e => Except.error e
      | Except.ok st1 => sampleLoopE objectiveE randomE fuel (n + 1) st1

/-- The seeding phase with exceptions (same branch structure as
`seedPhase`). -/
def seedPhaseE {S : Type} (P : Params S) (OE : OraclesE S) :
    Except PyExc (SeedSt S) :=
  let st0 : SeedSt S := ⟨none, ⊥, none, ⊥⟩
  if P.points_to_evaluate.length > 0 then
    seedLoopE OE.objectiveE P.points_to_evaluate st0
  else if P.n_samples > 1 then
    sampleLoopE OE.objectiveE OE.randomE P.n_samples.toNat 0 st0
  else
    match OE.objectiveE P.initial_state with
    | Except.error e => Except.error e
    | Except.ok co =>
      Except.ok ⟨some P.initial_state, st0.current_objective, st0.best_state,
        ((co : ℚ) : WithBot ℚ)⟩

/-- The climbing loop with exceptions: `_neighbor`, then
`_accept_neighbor` (which may swallow an `OverflowError`), then the
`_objective` calls of lines 163-164 (the line-164 re-evaluation of the
same pure function returns the same value, so it is not repeated). -/
def climbLoopE {S : Type} (OE : OraclesE S) (temp : ℚ) (maxObj : Option ℚ) :
    ℕ → ℕ → S → Option S → WithBot ℚ → ℕ →
      Except PyExc (S × Option S × WithBot ℚ × ℕ × Outcome)
  | 0, _, cur, bst, bobj, steps => Except.ok (cur, bst, bobj, steps, .reachedMaxSteps)
  | fuel + 1, i, cur, bst, bobj, steps =>
    match OE.neighborE i cur with
    | Except.error e => Except.error e
    | Except.ok nb =>
      match acceptNeighborE OE.objectiveE temp OE.expOverflows (OE.decision i) cur nb with
      | Except.error e => Except.error e
      | Except.ok acc =>
        let cur1 := if acc then nb else cur
        match OE.objectiveE cur1 with
        | Except.error e => Except.error e
        | Except.ok oNew =>
          let upd := bestUpdateTest oNew bobj
          let bobj1 := if upd then ((oNew : ℚ) : WithBot ℚ) else bobj
          let bst1 := if upd then some cur1 else bst
          if targetTest maxObj bobj1 then
            Except.ok (cur1, bst1, bobj1, steps + 1, .reachedMaxObjective)
          else
            climbLoopE OE temp maxObj fuel (i + 1) cur1 bst1 bobj1 (steps + 1)

/-- `run` when the problem-model operations may raise: any exception of
`_objective`, `_neighbor` or `_random` outside the acceptance test
propagates unmodified; inside the acceptance test an `OverflowError`
becomes an accept. -/
def runE {S : Type} (P : Params S) (OE : OraclesE S) :
    Except PyExc (Option S × WithBot ℚ × Outcome) :=
  match seedPhaseE P OE with
  | Except.error e => Except.error e
  | Except.ok sst =>
    match sst.current_state with
    | none => Except.ok (sst.best_state, sst.best_objective, Outcome.reachedMaxSteps)
    | some cur =>
      match climbLoopE OE P.temp P.max_objective (climbBudget P) 0 cur
          sst.best_state sst.best_objective 0 with
      | Except.error e => Except.error e
      | Except.ok r => Except.ok (r.2.1, r.2.2.1, r.2.2.2.2)

/-- Heap update for the address-level model of state objects. -/
def memSet (m : ℕ → ℚ) (a : ℕ) (v : ℚ) : ℕ → ℚ :=
  fun x => if x = a then v else m x

/-- Search state for the address-level model: states are heap addresses,
`mem` gives the objective value of the object stored at an address, and
`next` is the next fresh address (every allocation — a `_random` result, a
`_neighbor` result, or the `deepcopy` of line 165 — takes `next` and
increments it).  `_objective` reads the heap: `objective(a) = mem a`. -/
structure AddrSt where
  mem : ℕ → ℚ
  next : ℕ
  current_state : Option ℕ
  best_state : Option ℕ
  best_objective : WithBot ℚ

/-- Configuration of an address-level run: the initial state lives at
`initialAddr`, the seed points at the listed addresses, all below the
first fresh address `next` of the starting heap. -/
structure AddrParams where
  initialAddr : ℕ
  points : List ℕ
  max_steps : ℤ
  max_objective : Option ℚ
  n_samples : ℤ

/-- Oracles of an address-level run: the contents of the states `_random`
and `_neighbor` return (each allocated at a fresh address), and the
acceptance decision per climbing iteration. -/
structure AddrOracles where
  randomVal : ℕ → ℚ
  neighborVal : ℕ → ℚ
  accept : ℕ → Bool

/-- Seed-points loop at address level (lines 131-137): line 136 stores
`self.best_state = self.current_state` — the same reference, no copy — so
the recorded best is the seed point's own address. -/
def seedLoopA : List ℕ → AddrSt → AddrSt
  | [], st => st
  | p :: ps, st =>
    let co := st.mem p
    if ((co : ℚ) : WithBot ℚ) > st.best_objective then
      seedLoopA ps ⟨st.mem, st.next, some p, some p, ((co : ℚ) : WithBot ℚ)⟩
    else
      seedLoopA ps ⟨st.mem, st.next, some p, st.best_state, st.best_objective⟩

/-- Sampling loop at address level (lines 139-146): each `_random()`
result is a new object at a fresh address; line 144 again aliases
`best_state` to `current_state`. -/
def sampleLoopA (randomVal : ℕ → ℚ) : ℕ → ℕ → AddrSt → AddrSt
  | 0, _, st => st
  | fuel + 1, n, st =>
    let a := st.next
    let mem1 := memSet st.mem a (randomVal n)
    let co := mem1 a
    if ((co : ℚ) : WithBot ℚ) > st.best_objective then
      sampleLoopA randomVal fuel (n + 1) ⟨mem1, a + 1, some a, some a, ((co : ℚ) : WithBot ℚ)⟩
    else
      sampleLoopA randomVal fuel (n + 1) ⟨mem1, a + 1, some a, st.best_state, st.best_objective⟩

/-- Result of an address-level run. -/
structure AddrRes where
  mem : ℕ → ℚ
  next : ℕ
  current_state : Option ℕ
  best_state : Option ℕ
  best_objective : WithBot ℚ
  cur_steps : ℕ
  outcome : Outcome

/-- Climbing loop at address level (lines 153-169): the neighbor is a new
object at a fresh address; on a best update, line 165
`deepcopy(self.current_state)` allocates a fresh copy of the current
object and `best_state` points to that copy, not to `current_state`. -/
def climbLoopA (AO : AddrOracles) (maxObj : Option ℚ) :
    ℕ → ℕ → (ℕ → ℚ) → ℕ → ℕ → Option ℕ → WithBot ℚ → ℕ → AddrRes
  | 0, _, mem, nxt, cur, bst, bobj, steps => ⟨mem, nxt, some cur, bst, bobj, steps, .reachedMaxSteps⟩
  | fuel + 1, i, mem, nxt, cur, bst, bobj, steps =>
    let nb := nxt
    let mem1 := memSet mem nb (AO.neighborVal i)
    let nxt1 := nxt + 1
    let cur1 := if AO.accept i then nb else cur
    let oNew := mem1 cur1
    let upd := bestUpdateTest oNew bobj
    let copyAddr := nxt1
    let mem2 := if upd then memSet mem1 copyAddr (mem1 cur1) else mem1
    let nxt2 := if upd then nxt1 + 1 else nxt1
    let bobj1 := if upd then ((oNew : ℚ) : WithBot ℚ) else bobj
    let bst1 := if upd then some copyAddr else bst
    if targetTest maxObj bobj1 then
      ⟨mem2, nxt2, some cur1, bst1, bobj1, steps + 1, .reachedMaxObjective⟩
    else
      climbLoopA AO maxObj fuel (i + 1) mem2 nxt2 cur1 bst1 bobj1 (steps + 1)

/-- `run` at address level: same phase structure as `run`, tracking which
heap object each of `current_state` and `best_state` references. -/
def runAddr (AP : AddrParams) (mem0 : ℕ → ℚ) (base : ℕ) (AO : AddrOracles) : AddrRes :=
  let st0 : AddrSt := ⟨mem0, base, none, none, ⊥⟩
  let budget : ℕ := (AP.max_steps - AP.n_samples - (AP.points.length : ℤ)).toNat
  let seeded : AddrSt :=
    if AP.points.length > 0 then
      seedLoopA AP.points st0
    else if AP.n_samples > 1 then
      sampleLoopA AO.randomVal AP.n_samples.toNat 0 st0
    else
      ⟨st0.mem, st0.next, some AP.initialAddr, st0.best_state,
        ((st0.mem AP.initialAddr : ℚ) : WithBot ℚ)⟩
  match seeded.current_state with
  | none =>
    ⟨seeded.mem, seeded.next, none, seeded.best_state, seeded.best_objective, 0,
      Outcome.reachedMaxSteps⟩
  | some cur =>
    climbLoopA AO AP.max_objective budget 0 seeded.mem seeded.next cur
      seeded.best_state seeded.best_objective 0

end StochasticHillClimb

namespace StochasticHillClimb

theorem pyOr0_eq (b : WithBot ℚ) : pyOr0 b = b := by
  unfold pyOr0
  split
  next h => exact h.symm
  next => rfl

theorem bestUpdateTest_eq (q : ℚ) (b : WithBot ℚ) :
    bestUpdateTest q b = bestUpdateTestDirect q b := by
  unfold bestUpdateTest bestUpdateTestDirect
  rw [pyOr0_eq]

theorem targetTest_eq (m : Option ℚ) (b : WithBot ℚ) :
    targetTest m b = targetTestDirect m b := by
  cases m with
  | none => rfl
  | some m =>
    unfold targetTest targetTestDirect
    rw [pyOr0_eq]

theorem climbStep_eq_direct {S : Type} (O : Oracles S) (i : ℕ) (cur : S)
    (bst : Option S) (bobj : WithBot ℚ) :
    climbStep O i cur bst bobj = climbStepDirect O i cur bst bobj := by
  unfold climbStep climbStepDirect
  simp only [bestUpdateTest_eq]

theorem climbLoop_eq_direct {S : Type} (O : Oracles S) (maxObj : Option ℚ) :
    ∀ fuel i cur bst bobj steps,
      climbLoop O maxObj fuel i cur bst bobj steps
        = climbLoopDirect O maxObj fuel i cur bst bobj steps := by
  intro fuel
  induction fuel with
  | zero => intro i cur bst bobj steps; rfl
  | succ n ih =>
    intro i cur bst bobj steps
    simp only [climbLoop, climbLoopDirect, climbStep_eq_direct, targetTest_eq, ih]

theorem run_eq_runSpecDirect {S : Type} (P : Params S) (O : Oracles S) :
    run P O = runSpecDirect P O := by
  unfold run runSpecDirect
  cases hc : (seedPhase P O).1.current_state with
  | none => simp only [hc]
  | some cur => simp only [hc, climbLoop_eq_direct]

theorem seedStep_current {S : Type} (objective : S → ℚ) (st : SeedSt S) (p : S) :
    (seedStep objective st p).1.current_state = some p := by
  unfold seedStep
  dsimp only
  split <;> rfl

theorem seedLoop_current_some {S : Type} (objective : S → ℚ) :
    ∀ (l : List S) (st : SeedSt S),
      (l ≠ [] ∨ ∃ c, st.current_state = some c) →
      ∃ c, (seedLoop objective l st).1.current_state = some c := by
  intro l
  induction l with
  | nil =>
    intro st h
    rcases h with h | h
    · exact absurd rfl h
    · exact h
  | cons p ps ih =>
    intro st _
    exact ih (seedStep objective st p).1 (Or.inr ⟨p, seedStep_current objective st p⟩)

theorem sampleLoop_current_some {S : Type} (objective : S → ℚ) (randomState : ℕ → S) :
    ∀ (fuel n : ℕ) (st : SeedSt S),
      (fuel ≠ 0 ∨ ∃ c, st.current_state = some c) →
      ∃ c, (sampleLoop objective randomState fuel n st).1.current_state = some c := by
  intro fuel
  induction fuel with
  | zero =>
    intro n st h
    rcases h with h | h
    · exact absurd rfl h
    · exact h
  | succ k ih =>
    intro n st _
    exact ih (n + 1) _ (Or.inr ⟨_, seedStep_current objective st (randomState n)⟩)

theorem groupMax_eq_max (b : WithBot ℚ) (g : List ℚ) :
    groupMax b g = max (listSup g) b := by
  induction g with
  | nil =>
    simp only [groupMax, listSup, List.foldr]
    exact (max_eq_right bot_le).symm
  | cons q g ih =>
    simp only [groupMax, listSup, List.foldr] at ih ⊢
    rw [ih, max_assoc]

theorem le_groupMax (b : WithBot ℚ) (g : List ℚ) : b ≤ groupMax b g := by
  rw [groupMax_eq_max]
  exact le_max_right _ _

theorem listSup_append (xs ys : List ℚ) :
    listSup (xs ++ ys) = max (listSup xs) (listSup ys) := by
  unfold listSup
  rw [List.foldr_append]
  exact groupMax_eq_max (listSup ys) xs

theorem traceFold_append (b : WithBot ℚ) :
    ∀ t1 t2 : List TraceEnt, traceFold b t1 → traceFold (lastBest b t1) t2 →
      traceFold b (t1 ++ t2) := by
  intro t1
  induction t1 generalizing b with
  | nil => intro t2 _ h2; exact h2
  | cons e r ih => intro t2 h1 h2; exact ⟨h1.1, ih e.2 t2 h1.2 h2⟩

theorem traceFold_getElem :
    ∀ (tr : List TraceEnt) (b : WithBot ℚ), traceFold b tr →
      ∀ (k : ℕ) (h : k < tr.length),
        (tr.get ⟨k, h⟩).2 = max (listSup (obsUpTo tr k)) b := by
  intro tr
  induction tr with
  | nil => intro b _ k h; simp at h
  | cons e r ih =>
    intro b htr k h
    cases k with
    | zero =>
      have ho : obsUpTo (e :: r) 0 = e.1 := by simp [obsUpTo]
      show e.2 = _
      rw [ho, htr.1, groupMax_eq_max]
    | succ k =>
      have ho : obsUpTo (e :: r) (k + 1) = e.1 ++ obsUpTo r k := by
        simp [obsUpTo]
      have hk : k < r.length := by simpa using h
      have := ih e.2 htr.2 k hk
      show (r.get ⟨k, hk⟩).2 = _
      rw [this, ho, listSup_append, htr.1, groupMax_eq_max, max_left_comm, max_assoc]

theorem traceFold_chain :
    ∀ (tr : List TraceEnt) (b : WithBot ℚ), traceFold b tr →
      List.Chain' (· ≤ ·) (tr.map Prod.snd) := by
  intro tr
  induction tr with
  | nil => intro b _; simp
  | cons e r ih =>
    intro b htr
    cases r with
    | nil => simp
    | cons e2 r2 =>
      rw [List.map_cons, List.map_cons, List.chain'_cons]
      refine ⟨?_, ?_⟩
      · rw [htr.2.1]
        exact le_groupMax _ _
      · have h2 := ih e.2 htr.2
        rw [List.map_cons] at h2
        exact h2

theorem bestUpdateTest_iff (q : ℚ) (b : WithBot ℚ) :
    bestUpdateTest q b = true ↔ b < ((q : ℚ) : WithBot ℚ) := by
  unfold bestUpdateTest
  rw [pyOr0_eq]
  simp [gt_iff_lt]

theorem targetTest_iff (mo : Option ℚ) (b : WithBot ℚ) :
    targetTest mo b = true ↔ ∃ m, mo = some m ∧ ((m : ℚ) : WithBot ℚ) < b := by
  cases mo with
  | none => simp [targetTest]
  | some m => simp [targetTest, pyOr0_eq, gt_iff_lt]

theorem climbStep_facts {S : Type} (O : Oracles S) (i : ℕ) (cur : S) (bst : Option S)
    (bobj : WithBot ℚ)
    (hrej : O.accept i cur (O.neighbor i cur) = false →
      O.objective (O.neighbor i cur) < O.objective cur)
    (hcur : ((O.objective cur : ℚ) : WithBot ℚ) ≤ bobj) :
    (climbStep O i cur bst bobj).best_objective
        = groupMax bobj (climbStep O i cur bst bobj).entry.1 ∧
    (climbStep O i cur bst bobj).entry.2 = (climbStep O i cur bst bobj).best_objective ∧
    ((O.objective (climbStep O i cur bst bobj).current_state : ℚ) : WithBot ℚ)
        ≤ (climbStep O i cur bst bobj).best_objective := by
  unfold climbStep
  dsimp only
  split
  next ha =>
    split
    next hupd =>
      have hlt := (bestUpdateTest_iff _ _).mp hupd
      refine ⟨?_, rfl, le_refl _⟩
      simp only [groupMax, List.foldr]
      rw [max_eq_left (le_of_lt hlt), max_self, max_self,
        max_eq_right (le_trans hcur (le_of_lt hlt))]
    next hupd =>
      have hle : ((O.objective (O.neighbor i cur) : ℚ) : WithBot ℚ) ≤ bobj := by
        refine not_lt.mp ?_
        intro hcon
        exact hupd ((bestUpdateTest_iff _ _).mpr hcon)
      refine ⟨?_, rfl, hle⟩
      simp only [groupMax, List.foldr]
      rw [max_eq_right hle, max_eq_right hle, max_eq_right hcur]
  next ha =>
    have hf : O.accept i cur (O.neighbor i cur) = false := by
      cases hA : O.accept i cur (O.neighbor i cur) with
      | false => rfl
      | true => exact absurd hA ha
    have hlt := hrej hf
    have hlt2 : ((O.objective (O.neighbor i cur) : ℚ) : WithBot ℚ) ≤ bobj :=
      le_trans (le_of_lt (WithBot.coe_lt_coe.mpr hlt)) hcur
    split
    next hupd => exact absurd ((bestUpdateTest_iff _ _).mp hupd) (not_lt.mpr hcur)
    next hupd =>
      refine ⟨?_, rfl, hcur⟩
      simp only [groupMax, List.foldr]
      rw [max_eq_right hcur, max_eq_right hlt2, max_eq_right hcur]

theorem climbStep_best_mono {S : Type} (O : Oracles S) (i : ℕ) (cur : S)
    (bst : Option S) (bobj : WithBot ℚ) :
    bobj ≤ (climbStep O i cur bst bobj).best_objective := by
  unfold climbStep
  dsimp only
  split <;> split
  all_goals
    first
      | exact le_of_lt ((bestUpdateTest_iff _ _).mp (by assumption))
      | exact le_refl _

theorem climbStep_bestConsistent {S : Type} (O : Oracles S) (i : ℕ) (cur : S)
    (bst : Option S) (bobj : WithBot ℚ)
    (hc : ∀ t, bst = some t → ((O.objective t : ℚ) : WithBot ℚ) = bobj) :
    ∀ t, (climbStep O i cur bst bobj).best_state = some t →
      ((O.objective t : ℚ) : WithBot ℚ) = (climbStep O i cur bst bobj).best_objective := by
  unfold climbStep
  dsimp only
  intro t
  split <;> split
  all_goals
    first
      | exact hc t
      | intro ht; cases ht; rfl

theorem climbStep_bestSome {S : Type} (O : Oracles S) (i : ℕ) (cur : S)
    (bst : Option S) (bobj : WithBot ℚ) (h : bst.isSome = true) :
    (climbStep O i cur bst bobj).best_state.isSome = true := by
  unfold climbStep
  dsimp only
  split <;> split
  all_goals
    first
      | rfl
      | exact h

theorem climbLoop_spec {S : Type} (O : Oracles S) (maxObj : Option ℚ)
    (hacc : ∀ i c n, O.objective c ≤ O.objective n → O.accept i c n = true) :
    ∀ (fuel i : ℕ) (cur : S) (bst : Option S) (bobj : WithBot ℚ) (steps : ℕ),
      ((O.objective cur : ℚ) : WithBot ℚ) ≤ bobj →
      traceFold bobj (climbLoop O maxObj fuel i cur bst bobj steps).trace ∧
      lastBest bobj (climbLoop O maxObj fuel i cur bst bobj steps).trace
        = (climbLoop O maxObj fuel i cur bst bobj steps).best_objective := by
  intro fuel
  induction fuel with
  | zero => intro i cur bst bobj steps _; exact ⟨trivial, rfl⟩
  | succ fuel ih =>
    intro i cur bst bobj steps hcur
    have hrej : O.accept i cur (O.neighbor i cur) = false →
        O.objective (O.neighbor i cur) < O.objective cur := by
      intro hf
      by_contra hn
      rw [hacc i cur (O.neighbor i cur) (not_lt.mp hn)] at hf
      exact absurd hf (by decide)
    obtain ⟨h1, h2, h3⟩ := climbStep_facts O i cur bst bobj hrej hcur
    simp only [climbLoop]
    split
    next htgt =>
      refine ⟨⟨?_, trivial⟩, ?_⟩
      · rw [h2, h1]
      · exact h2
    next htgt =>
      obtain ⟨ih1, ih2⟩ := ih (i + 1) (climbStep O i cur bst bobj).current_state
        (climbStep O i cur bst bobj).best_state (climbStep O i cur bst bobj).best_objective
        (steps + 1) h3
      refine ⟨⟨?_, ?_⟩, ?_⟩
      · rw [h2, h1]
      · rw [h2]
        exact ih1
      · show lastBest (climbStep O i cur bst bobj).entry.2 _ = _
        rw [h2]
        exact ih2

theorem climbLoop_bestConsistent {S : Type} (O : Oracles S) (maxObj : Option ℚ) :
    ∀ (fuel i : ℕ) (cur : S) (bst : Option S) (bobj : WithBot ℚ) (steps : ℕ),
      (∀ t, bst = some t → ((O.objective t : ℚ) : WithBot ℚ) = bobj) →
      ∀ t, (climbLoop O maxObj fuel i cur bst bobj steps).best_state = some t →
        ((O.objective t : ℚ) : WithBot ℚ)
          = (climbLoop O maxObj fuel i cur bst bobj steps).best_objective := by
  intro fuel
  induction fuel with
  | zero => intro i cur bst bobj steps hc; exact hc
  | succ fuel ih =>
    intro i cur bst bobj steps hc
    simp only [climbLoop]
    split
    next => exact climbStep_bestConsistent O i cur bst bobj hc
    next =>
      exact ih (i + 1) _ _ _ (steps + 1) (climbStep_bestConsistent O i cur bst bobj hc)

theorem climbLoop_bestSome {S : Type} (O : Oracles S) (maxObj : Option ℚ) :
    ∀ (fuel i : ℕ) (cur : S) (bst : Option S) (bobj : WithBot ℚ) (steps : ℕ),
      bst.isSome = true →
      (climbLoop O maxObj fuel i cur bst bobj steps).best_state.isSome = true := by
  intro fuel
  induction fuel with
  | zero => intro i cur bst bobj steps h; exact h
  | succ fuel ih =>
    intro i cur bst bobj steps h
    simp only [climbLoop]
    split
    next => exact climbStep_bestSome O i cur bst bobj h
    next => exact ih (i + 1) _ _ _ (steps + 1) (climbStep_bestSome O i cur bst bobj h)

theorem climbLoop_best_mono {S : Type} (O : Oracles S) (maxObj : Option ℚ) :
    ∀ (fuel i : ℕ) (cur : S) (bst : Option S) (bobj : WithBot ℚ) (steps : ℕ),
      bobj ≤ (climbLoop O maxObj fuel i cur bst bobj steps).best_objective := by
  intro fuel
  induction fuel with
  | zero => intro i cur bst bobj steps; exact le_refl _
  | succ fuel ih =>
    intro i cur bst bobj steps
    simp only [climbLoop]
    split
    next => exact climbStep_best_mono O i cur bst bobj
    next =>
      exact le_trans (climbStep_best_mono O i cur bst bobj) (ih (i + 1) _ _ _ (steps + 1))

theorem climbLoop_steps_of_maxSteps {S : Type} (O : Oracles S) (maxObj : Option ℚ) :
    ∀ (fuel i : ℕ) (cur : S) (bst : Option S) (bobj : WithBot ℚ) (steps : ℕ),
      (climbLoop O maxObj fuel i cur bst bobj steps).outcome = Outcome.reachedMaxSteps →
      (climbLoop O maxObj fuel i cur bst bobj steps).cur_steps = steps + fuel := by
  intro fuel
  induction fuel with
  | zero => intro i cur bst bobj steps _; rfl
  | succ fuel ih =>
    intro i cur bst bobj steps
    simp only [climbLoop]
    split
    next => intro h; exact Outcome.noConfusion h
    next =>
      intro h
      have hrec := ih (i + 1) _ _ _ (steps + 1) h
      rw [hrec]
      omega

theorem climbLoop_outcome_iff {S : Type} (O : Oracles S) (maxObj : Option ℚ) :
    ∀ (fuel i : ℕ) (cur : S) (bst : Option S) (bobj : WithBot ℚ) (steps : ℕ),
      (climbLoop O maxObj fuel i cur bst bobj steps).outcome = Outcome.reachedMaxObjective
        ↔ ∃ m, maxObj = some m ∧ 0 < fuel ∧
            ((m : ℚ) : WithBot ℚ)
              < (climbLoop O maxObj fuel i cur bst bobj steps).best_objective := by
  intro fuel
  induction fuel with
  | zero =>
    intro i cur bst bobj steps
    constructor
    · intro h; exact Outcome.noConfusion h
    · rintro ⟨m, _, h0, _⟩; exact absurd h0 (Nat.lt_irrefl 0)
  | succ fuel ih =>
    intro i cur bst bobj steps
    simp only [climbLoop]
    split
    next htgt =>
      obtain ⟨m, hm, hlt⟩ := (targetTest_iff _ _).mp htgt
      exact iff_of_true rfl ⟨m, hm, Nat.succ_pos _, hlt⟩
    next htgt =>
      cases fuel with
      | zero =>
        constructor
        · intro h; exact Outcome.noConfusion h
        · rintro ⟨m, hm, _, hlt⟩
          exact absurd ((targetTest_iff _ _).mpr ⟨m, hm, hlt⟩) htgt
      | succ k =>
        constructor
        · intro h
          obtain ⟨m, hm, _, hlt⟩ := (ih (i + 1) _ _ _ (steps + 1)).mp h
          exact ⟨m, hm, Nat.succ_pos _, hlt⟩
        · rintro ⟨m, hm, _, hlt⟩
          exact (ih (i + 1) _ _ _ (steps + 1)).mpr ⟨m, hm, Nat.succ_pos _, hlt⟩

theorem climbLoop_none {S : Type} (O : Oracles S) :
    ∀ (fuel i : ℕ) (cur : S) (bst : Option S) (bobj : WithBot ℚ) (steps : ℕ),
      (climbLoop O none fuel i cur bst bobj steps).cur_steps = steps + fuel ∧
      (climbLoop O none fuel i cur bst bobj steps).outcome = Outcome.reachedMaxSteps := by
  intro fuel
  induction fuel with
  | zero => intro i cur bst bobj steps; exact ⟨rfl, rfl⟩
  | succ fuel ih =>
    intro i cur bst bobj steps
    simp only [climbLoop]
    rw [if_neg (fun hh => Bool.noConfusion hh)]
    refine ⟨?_, (ih (i + 1) _ _ _ (steps + 1)).2⟩
    rw [(ih (i + 1) _ _ _ (steps + 1)).1]
    omega

theorem seedStep_facts {S : Type} (o : S → ℚ) (st : SeedSt S) (p : S) :
    (seedStep o st p).1.best_objective
        = max ((o p : ℚ) : WithBot ℚ) st.best_objective ∧
    (seedStep o st p).2 = ([o p], (seedStep o st p).1.best_objective) ∧
    (seedStep o st p).1.current_state = some p ∧
    ((∀ s, st.best_state = some s → ((o s : ℚ) : WithBot ℚ) = st.best_objective) →
      ∀ s, (seedStep o st p).1.best_state = some s →
        ((o s : ℚ) : WithBot ℚ) = (seedStep o st p).1.best_objective) ∧
    (st.best_state.isSome = true → (seedStep o st p).1.best_state.isSome = true) ∧
    (st.best_objective = ⊥ → (seedStep o st p).1.best_state.isSome = true) := by
  unfold seedStep
  dsimp only
  split
  next h =>
    refine ⟨(max_eq_left (le_of_lt h)).symm, rfl, rfl, ?_, fun _ => rfl, fun _ => rfl⟩
    intro _ s hs
    cases hs
    rfl
  next h =>
    refine ⟨(max_eq_right (not_lt.mp h)).symm, rfl, rfl, fun hc => hc, fun hsm => hsm, ?_⟩
    intro hbot
    rw [hbot] at h
    exact absurd (WithBot.bot_lt_coe (o p)) h

theorem seedLoop_spec {S : Type} (o : S → ℚ) :
    ∀ (l : List S) (st : SeedSt S),
      traceFold st.best_objective (seedLoop o l st).2 ∧
      lastBest st.best_objective (seedLoop o l st).2 = (seedLoop o l st).1.best_objective ∧
      (((∀ c, st.current_state = some c → ((o c : ℚ) : WithBot ℚ) ≤ st.best_objective)
          ∨ l ≠ []) →
        ∀ c, (seedLoop o l st).1.current_state = some c →
          ((o c : ℚ) : WithBot ℚ) ≤ (seedLoop o l st).1.best_objective) ∧
      ((∀ s, st.best_state = some s → ((o s : ℚ) : WithBot ℚ) = st.best_objective) →
        ∀ s, (seedLoop o l st).1.best_state = some s →
          ((o s : ℚ) : WithBot ℚ) = (seedLoop o l st).1.best_objective) ∧
      ((st.best_state.isSome = true ∨ (st.best_objective = ⊥ ∧ l ≠ [])) →
        (seedLoop o l st).1.best_state.isSome = true) := by
  intro l
  induction l with
  | nil =>
    intro st
    refine ⟨trivial, rfl, ?_, fun hc => hc, ?_⟩
    · intro h
      rcases h with h | h
      · exact h
      · exact absurd rfl h
    · intro h
      rcases h with h | ⟨_, h⟩
      · exact h
      · exact absurd rfl h
  | cons p ps ih =>
    intro st
    obtain ⟨f1, f2, f3, f4, f5, f6⟩ := seedStep_facts o st p
    obtain ⟨i1, i2, i3, i4, i5⟩ := ih (seedStep o st p).1
    refine ⟨?_, ?_, ?_, ?_, ?_⟩
    · show traceFold st.best_objective
        ((seedStep o st p).2 :: (seedLoop o ps (seedStep o st p).1).2)
      rw [f2]
      exact ⟨by rw [f1]; rfl, i1⟩
    · show lastBest st.best_objective
        ((seedStep o st p).2 :: (seedLoop o ps (seedStep o st p).1).2) = _
      rw [f2]
      exact i2
    · intro _ c hc
      refine i3 (Or.inl ?_) c hc
      intro d hd
      rw [f3] at hd
      cases hd
      rw [f1]
      exact le_max_left _ _
    · intro hc
      exact i4 (f4 hc)
    · intro h
      refine i5 (Or.inl ?_)
      rcases h with hsome | ⟨hbot, _⟩
      · exact f5 hsome
      · exact f6 hbot

theorem sampleLoop_spec {S : Type} (o : S → ℚ) (randomState : ℕ → S) :
    ∀ (fuel n : ℕ) (st : SeedSt S),
      traceFold st.best_objective (sampleLoop o randomState fuel n st).2 ∧
      lastBest st.best_objective (sampleLoop o randomState fuel n st).2
        = (sampleLoop o randomState fuel n st).1.best_objective ∧
      (((∀ c, st.current_state = some c → ((o c : ℚ) : WithBot ℚ) ≤ st.best_objective)
          ∨ fuel ≠ 0) →
        ∀ c, (sampleLoop o randomState fuel n st).1.current_state = some c →
          ((o c : ℚ) : WithBot ℚ) ≤ (sampleLoop o randomState fuel n st).1.best_objective) ∧
      ((∀ s, st.best_state = some s → ((o s : ℚ) : WithBot ℚ) = st.best_objective) →
        ∀ s, (sampleLoop o randomState fuel n st).1.best_state = some s →
          ((o s : ℚ) : WithBot ℚ) = (sampleLoop o randomState fuel n st).1.best_objective) ∧
      ((st.best_state.isSome = true ∨ (st.best_objective = ⊥ ∧ fuel ≠ 0)) →
        (sampleLoop o randomState fuel n st).1.best_state.isSome = true) := by
  intro fuel
  induction fuel with
  | zero =>
    intro n st
    refine ⟨trivial, rfl, ?_, fun hc => hc, ?_⟩
    · intro h
      rcases h with h | h
      · exact h
      · exact absurd rfl h
    · intro h
      rcases h with h | ⟨_, h⟩
      · exact h
      · exact absurd rfl h
  | succ fuel ih =>
    intro n st
    obtain ⟨f1, f2, f3, f4, f5, f6⟩ := seedStep_facts o st (randomState n)
    obtain ⟨i1, i2, i3, i4, i5⟩ := ih (n + 1) (seedStep o st (randomState n)).1
    refine ⟨?_, ?_, ?_, ?_, ?_⟩
    · show traceFold st.best_objective
        ((seedStep o st (randomState n)).2
          :: (sampleLoop o randomState fuel (n + 1) (seedStep o st (randomState n)).1).2)
      rw [f2]
      exact ⟨by rw [f1]; rfl, i1⟩
    · show lastBest st.best_objective
        ((seedStep o st (randomState n)).2
          :: (sampleLoop o randomState fuel (n + 1) (seedStep o st (randomState n)).1).2) = _
      rw [f2]
      exact i2
    · intro _ c hc
      refine i3 (Or.inl ?_) c hc
      intro d hd
      rw [f3] at hd
      cases hd
      rw [f1]
      exact le_max_left _ _
    · intro hc
      exact i4 (f4 hc)
    · intro h
      refine i5 (Or.inl ?_)
      rcases h with hsome | ⟨hbot, _⟩
      · exact f5 hsome
      · exact f6 hbot

theorem seedPhase_current_state_some {S : Type} (P : Params S) (O : Oracles S) :
    ∃ c, (seedPhase P O).1.current_state = some c := by
  unfold seedPhase
  split
  next hlen =>
    apply seedLoop_current_some
    left
    intro hnil
    rw [hnil] at hlen
    simp at hlen
  next =>
    split
    next hns =>
      apply sampleLoop_current_some
      left
      omega
    next => exact ⟨P.initial_state, rfl⟩

theorem seedPhase_spec {S : Type} (P : Params S) (O : Oracles S) :
    traceFold ⊥ (seedPhase P O).2 ∧
    lastBest ⊥ (seedPhase P O).2 = (seedPhase P O).1.best_objective ∧
    (∀ c, (seedPhase P O).1.current_state = some c →
      ((O.objective c : ℚ) : WithBot ℚ) ≤ (seedPhase P O).1.best_objective) ∧
    (∀ s, (seedPhase P O).1.best_state = some s →
      ((O.objective s : ℚ) : WithBot ℚ) = (seedPhase P O).1.best_objective) ∧
    ((P.points_to_evaluate ≠ [] ∨ 1 < P.n_samples) →
      (seedPhase P O).1.best_state.isSome = true) := by
  simp only [seedPhase]
  split
  next hlen =>
    have hne : P.points_to_evaluate ≠ [] := by
      intro h
      rw [h] at hlen
      simp at hlen
    obtain ⟨s1, s2, s3, s4, s5⟩ :=
      seedLoop_spec O.objective P.points_to_evaluate ⟨none, ⊥, none, ⊥⟩
    exact ⟨s1, s2, s3 (Or.inr hne), s4 (fun s hs => by cases hs),
      fun _ => s5 (Or.inr ⟨rfl, hne⟩)⟩
  next hlen =>
    split
    next hns =>
      obtain ⟨s1, s2, s3, s4, s5⟩ :=
        sampleLoop_spec O.objective O.randomState P.n_samples.toNat 0 ⟨none, ⊥, none, ⊥⟩
      have hf : P.n_samples.toNat ≠ 0 := by omega
      exact ⟨s1, s2, s3 (Or.inr hf), s4 (fun s hs => by cases hs),
        fun _ => s5 (Or.inr ⟨rfl, hf⟩)⟩
    next hns =>
      refine ⟨⟨(max_eq_left bot_le).symm, trivial⟩, rfl, ?_, ?_, ?_⟩
      · intro c hcc
        cases hcc
        exact le_refl _
      · intro s hs
        cases hs
      · intro h
        rcases h with h | h
        · exact absurd (by simpa using List.length_pos.mpr h) hlen
        · exact absurd h hns

end StochasticHillClimb

namespace StochasticHillClimb

/-- C4: when the current state's objective is at most the neighbor's and
the temperature is positive, `_accept_neighbor` accepts for every value of
the random draw — acceptance probability is exactly 1: the computed
`p = exp(-(objective(current) - objective(neighbor)) / temp)` is at least
1, so the `p >= 1` branch returns `True` independently of the draw. -/
theorem claim_C4 (objCur objNb temp : ℝ) (ht : 0 < temp) (h : objCur ≤ objNb) :
    ∀ draw : ℝ, acceptsNeighbor objCur objNb temp draw := by
  intro draw
  unfold acceptsNeighbor
  left
  apply Real.one_le_exp
  apply div_nonneg
  · linarith
  · exact le_of_lt ht

theorem claim_C4_witness : acceptsNeighbor 0 1 1 (1 / 2) :=
  claim_C4 0 1 1 (by norm_num) (by norm_num) (1 / 2)

/-- C5 counterexample: the constructor accepts a temperature that is not
positive — `temp = -1.0` (numeric but `≤ 0`) is validated and stored, so
"temperature <= 0 is rejected" is false on the code (no positivity check
exists at lines 48-51). -/
theorem claim_C5_counterexample :
    hcInit (0 : ℤ) (PyVal.pfloat (-1)) (PyVal.pint 10) PyVal.pnone 1 ([] : List ℤ)
        = Except.ok ⟨0, 1, [], 10, none, -1⟩ ∧ ((-1 : ℚ) < 0) := by
  constructor
  · rfl
  · norm_num

/-- C5 amended: construction succeeds exactly when max steps is a positive
integer, temperature is numeric, and max objective is absent or numeric;
temperature positivity is NOT validated (any numeric temperature,
including zero and negative values, is accepted).  On success the
validated configuration is returned (stored) and nothing else happens. -/
theorem claim_C5 {S : Type} (initial : S) (temp max_steps max_objective : PyVal)
    (n_samples : ℤ) (pts : List S) :
    (hcInit initial temp max_steps max_objective n_samples pts).isOk = true ↔
      ((∃ n : ℤ, max_steps = PyVal.pint n ∧ 0 < n) ∧
        (max_objective = PyVal.pnone ∨ max_objective.isNumeric = true) ∧
        temp.isNumeric = true) := by
  cases max_steps <;> cases max_objective <;> cases temp <;>
    simp [hcInit, PyVal.isNumeric, Except.isOk, Except.toBool] <;>
    split_ifs <;> simp_all

theorem claim_C5_witness :
    (hcInit (0 : ℤ) (PyVal.pint 2) (PyVal.pint 5) PyVal.pnone 1 ([] : List ℤ)).isOk = true :=
  (claim_C5 (0 : ℤ) (PyVal.pint 2) (PyVal.pint 5) PyVal.pnone 1 []).mpr
    ⟨⟨5, rfl, by norm_num⟩, Or.inl rfl, rfl⟩

/-- C1 counterexample: in the default seeding path (`n_samples == 1`, no
seed points) the one seeding evaluation sets `best_objective` but not
`best_state` (line 149 only assigns `best_objective`), so a run whose
climbing phase performs no best update — here the budget is
`max_steps - n_samples = 0` — returns `best_state = None` together with
`best_objective = objective(initial_state) = 7`, falsifying both "best
state is an actual state" and `objective(best_state) == best_objective`. -/
theorem claim_C1_counterexample :
    (run (⟨(7 : ℤ), 1, 1, none, 1, []⟩ : Params ℤ)
        ⟨fun s => (s : ℚ), fun _ c => c, fun _ => 0, fun _ _ _ => true⟩).best_state
      = none ∧
    (run (⟨(7 : ℤ), 1, 1, none, 1, []⟩ : Params ℤ)
        ⟨fun s => (s : ℚ), fun _ c => c, fun _ => 0, fun _ _ _ => true⟩).best_objective
      = (((7 : ℤ) : ℚ) : WithBot ℚ) := by decide

/-- C1 amended: `run` always returns the pair (`best_state`,
`best_objective`); whenever `best_state` holds a state,
`objective(best_state) == best_objective` (deterministic objective), and
`best_state` is guaranteed to hold a state when the seeding phase used
seed points or random sampling.  On the default path (`n_samples == 1`,
no seed points) `best_state` remains `None` until the first climbing-phase
best update, even though at least one evaluation occurred. -/
theorem claim_C1 {S : Type} (P : Params S) (O : Oracles S) :
    (∀ s, (run P O).best_state = some s →
      ((O.objective s : ℚ) : WithBot ℚ) = (run P O).best_objective) ∧
    ((P.points_to_evaluate ≠ [] ∨ 1 < P.n_samples) →
      (run P O).best_state.isSome = true) := by
  obtain ⟨c, hc⟩ := seedPhase_current_state_some P O
  obtain ⟨s1, s2, s3, s4, s5⟩ := seedPhase_spec P O
  unfold run
  simp only [hc]
  constructor
  · exact climbLoop_bestConsistent O P.max_objective (climbBudget P) 0 c _ _ 0 s4
  · intro h
    exact climbLoop_bestSome O P.max_objective (climbBudget P) 0 c _ _ 0 (s5 h)

theorem claim_C1_witness :
    (((6 : ℤ) : ℚ) : WithBot ℚ)
      = (run (⟨(0 : ℤ), 1, 3, none, 1, [5]⟩ : Params ℤ)
          ⟨fun s => (s : ℚ), fun _ c => c + 1, fun _ => 0, fun _ _ _ => true⟩).best_objective :=
  (claim_C1 (⟨(0 : ℤ), 1, 3, none, 1, [5]⟩ : Params ℤ)
      ⟨fun s => (s : ℚ), fun _ c => c + 1, fun _ => 0, fun _ _ _ => true⟩).1 6 (by decide)

/-- C2: with a positive temperature the acceptance test accepts every
neighbor at least as good as the current state (hypothesis `hacc`, the
behaviour proved of `_accept_neighbor` on the real-valued model), and then
at every point of the run where one seeding item or one climbing iteration
has been fully processed, `best_objective` equals the maximum objective
value observed so far over all evaluated states — seed points, random
samples, and every accepted or rejected neighbor candidate — and the
sequence of `best_objective` values over the run is non-decreasing. -/
theorem claim_C2 {S : Type} (P : Params S) (O : Oracles S)
    (hacc : ∀ i c n, O.objective c ≤ O.objective n → O.accept i c n = true) :
    (∀ (k : ℕ) (h : k < (run P O).trace.length),
      ((run P O).trace.get ⟨k, h⟩).2 = listSup (obsUpTo (run P O).trace k)) ∧
    List.Chain' (· ≤ ·) ((run P O).trace.map Prod.snd) := by
  have htf : traceFold ⊥ (run P O).trace := by
    obtain ⟨c, hc⟩ := seedPhase_current_state_some P O
    obtain ⟨s1, s2, s3, s4, s5⟩ := seedPhase_spec P O
    unfold run
    simp only [hc]
    refine traceFold_append ⊥ _ _ s1 ?_
    rw [s2]
    exact (climbLoop_spec O P.max_objective hacc (climbBudget P) 0 c _ _ 0 (s3 c hc)).1
  constructor
  · intro k h
    rw [traceFold_getElem (run P O).trace ⊥ htf k h]
    exact max_eq_left bot_le
  · exact traceFold_chain _ ⊥ htf

theorem claim_C2_witness :
    (((run (⟨(0 : ℤ), 1, 4, none, 1, []⟩ : Params ℤ)
        ⟨fun s => (s : ℚ), fun _ c => c + 1, fun _ => 0,
          fun _ c n => decide ((c : ℚ) ≤ (n : ℚ))⟩).trace.get ⟨0, by decide⟩).2
      = listSup (obsUpTo (run (⟨(0 : ℤ), 1, 4, none, 1, []⟩ : Params ℤ)
          ⟨fun s => (s : ℚ), fun _ c => c + 1, fun _ => 0,
            fun _ c n => decide ((c : ℚ) ≤ (n : ℚ))⟩).trace 0)) ∧
    List.Chain' (· ≤ ·)
      (((run (⟨(0 : ℤ), 1, 4, none, 1, []⟩ : Params ℤ)
          ⟨fun s => (s : ℚ), fun _ c => c + 1, fun _ => 0,
            fun _ c n => decide ((c : ℚ) ≤ (n : ℚ))⟩).trace).map Prod.snd) :=
  ⟨(claim_C2 (⟨(0 : ℤ), 1, 4, none, 1, []⟩ : Params ℤ)
      ⟨fun s => (s : ℚ), fun _ c => c + 1, fun _ => 0,
        fun _ c n => decide ((c : ℚ) ≤ (n : ℚ))⟩
      (fun _ _ _ h => decide_eq_true h)).1 0 (by decide),
    (claim_C2 (⟨(0 : ℤ), 1, 4, none, 1, []⟩ : Params ℤ)
      ⟨fun s => (s : ℚ), fun _ c => c + 1, fun _ => 0,
        fun _ c n => decide ((c : ℚ) ≤ (n : ℚ))⟩
      (fun _ _ _ h => decide_eq_true h)).2⟩

/-- C3 counterexample: with `max_objective = 5` and every state's
objective equal to 5, a state with objective `>= max_objective` is reached
already in the seeding phase and at every climbing step, yet the run
exhausts the full climbing budget (2 steps) and reports the
budget-exhausted outcome, because line 167 requires the best objective to
strictly exceed `max_objective` (`>`), not reach it (`>=`). -/
theorem claim_C3_counterexample :
    (run (⟨(0 : ℤ), 1, 3, some 5, 1, []⟩ : Params ℤ)
        ⟨fun _ => (5 : ℚ), fun _ c => c, fun _ => 0, fun _ _ _ => true⟩).outcome
      = Outcome.reachedMaxSteps ∧
    (run (⟨(0 : ℤ), 1, 3, some 5, 1, []⟩ : Params ℤ)
        ⟨fun _ => (5 : ℚ), fun _ c => c, fun _ => 0, fun _ _ _ => true⟩).cur_steps = 2 ∧
    (run (⟨(0 : ℤ), 1, 3, some 5, 1, []⟩ : Params ℤ)
        ⟨fun _ => (5 : ℚ), fun _ c => c, fun _ => 0, fun _ _ _ => true⟩).best_objective
      = ((5 : ℚ) : WithBot ℚ) := by decide

/-- C3 amended: the run reports the target-reached outcome exactly when a
climbing iteration ran (positive climbing budget) and the final best
objective STRICTLY exceeds the configured `max_objective` (the line-167
comparison is `>`, so a best objective merely equal to the target never
triggers early termination); on the target outcome
`best_objective > max_objective` (hence `>= max_objective`).  When the
target is never strictly exceeded the run performs the full climbing
budget and reports the budget-exhausted outcome. -/
theorem claim_C3 {S : Type} (P : Params S) (O : Oracles S) :
    ((run P O).outcome = Outcome.reachedMaxObjective ↔
      ∃ m, P.max_objective = some m ∧ 0 < climbBudget P ∧
        ((m : ℚ) : WithBot ℚ) < (run P O).best_objective) ∧
    ((run P O).outcome = Outcome.reachedMaxSteps →
      (run P O).cur_steps = climbBudget P) := by
  obtain ⟨c, hc⟩ := seedPhase_current_state_some P O
  unfold run
  simp only [hc]
  constructor
  · exact climbLoop_outcome_iff O P.max_objective (climbBudget P) 0 c _ _ 0
  · intro h
    have hs := climbLoop_steps_of_maxSteps O P.max_objective (climbBudget P) 0 c _ _ 0 h
    rw [Nat.zero_add] at hs
    exact hs

theorem claim_C3_witness :
    (run (⟨(0 : ℤ), 1, 5, some 2, 1, []⟩ : Params ℤ)
        ⟨fun s => (s : ℚ), fun _ c => c + 1, fun _ => 0, fun _ _ _ => true⟩).outcome
      = Outcome.reachedMaxObjective :=
  ((claim_C3 (⟨(0 : ℤ), 1, 5, some 2, 1, []⟩ : Params ℤ)
      ⟨fun s => (s : ℚ), fun _ c => c + 1, fun _ => 0, fun _ _ _ => true⟩).1).mpr
    ⟨2, rfl, by decide, by decide⟩

/-- C9: when no `max_objective` target is configured (so no early
termination can fire) the climbing phase performs exactly
`max(0, max_steps - n_samples - len(points_to_evaluate))` iterations —
`Int.toNat` of the difference, which is 0 when the difference is zero or
negative — and the final step counter `cur_steps` equals that number. -/
theorem claim_C9 {S : Type} (P : Params S) (O : Oracles S)
    (h : P.max_objective = none) :
    (run P O).cur_steps
        = (P.max_steps - P.n_samples - (P.points_to_evaluate.length : ℤ)).toNat ∧
    (run P O).outcome = Outcome.reachedMaxSteps := by
  obtain ⟨c, hc⟩ := seedPhase_current_state_some P O
  unfold run
  simp only [hc, h]
  refine ⟨?_, (climbLoop_none O (climbBudget P) 0 c _ _ 0).2⟩
  rw [(climbLoop_none O (climbBudget P) 0 c _ _ 0).1]
  rw [Nat.zero_add]
  rfl

theorem claim_C9_witness :
    (run (⟨(0 : ℤ), 1, 7, none, 2, [1, 2]⟩ : Params ℤ)
        ⟨fun s => (s : ℚ), fun _ c => c + 1, fun i => (i : ℤ), fun _ _ _ => true⟩).cur_steps
      = 3 :=
  (claim_C9 (⟨(0 : ℤ), 1, 7, none, 2, [1, 2]⟩ : Params ℤ)
      ⟨fun s => (s : ℚ), fun _ c => c + 1, fun i => (i : ℤ), fun _ _ _ => true⟩ rfl).1

theorem exceptIsOk_exists {ε α : Type} (x : Except ε α) (h : x.isOk = true) :
    ∃ a, x = Except.ok a := by
  cases x with
  | ok a => exact ⟨a, rfl⟩
  | error e => simp [Except.isOk, Except.toBool] at h

theorem acceptNeighborE_not_overflow {S : Type} (objE : S → Except PyExc ℚ) (temp : ℚ)
    (expOv : ℚ → Bool) (dec : ℚ → Bool) (cur nb : S) :
    acceptNeighborE objE temp expOv dec cur nb ≠ Except.error PyExc.overflowError := by
  unfold acceptNeighborE
  cases hc : objE cur with
  | error e => cases e <;> simp
  | ok oCur =>
    cases hn : objE nb with
    | error e => cases e <;> simp
    | ok oNb =>
      by_cases htemp : temp = 0
      · simp [htemp]
      · by_cases hov : expOv ((oNb - oCur) / temp) = true
        · simp [htemp, hov]
        · simp [htemp, hov]

theorem acceptNeighborE_propagates {S : Type} (objE : S → Except PyExc ℚ) (temp : ℚ)
    (expOv : ℚ → Bool) (dec : ℚ → Bool) (cur nb : S) (htemp : temp ≠ 0) (e : PyExc) :
    acceptNeighborE objE temp expOv dec cur nb = Except.error e →
    objE cur = Except.error e ∨ objE nb = Except.error e := by
  unfold acceptNeighborE
  cases hc : objE cur with
  | error e1 =>
    cases e1 with
    | overflowError => intro h; exact absurd h (by simp)
    | zeroDivisionError =>
      intro h
      cases h
      exact Or.inl rfl
    | otherExc n =>
      intro h
      cases h
      exact Or.inl rfl
  | ok oCur =>
    cases hn : objE nb with
    | error e1 =>
      cases e1 with
      | overflowError => intro h; exact absurd h (by simp)
      | zeroDivisionError =>
        intro h
        cases h
        exact Or.inr rfl
      | otherExc n =>
        intro h
        cases h
        exact Or.inr rfl
    | ok oNb =>
      by_cases hov : expOv ((oNb - oCur) / temp) = true
      · simp [htemp, hov]
      · simp [htemp, hov]

theorem acceptNeighborE_overflow_accepts {S : Type} (objE : S → Except PyExc ℚ)
    (temp : ℚ) (expOv : ℚ → Bool) (dec : ℚ → Bool) (cur nb : S) (oCur oNb : ℚ)
    (htemp : temp ≠ 0)
    (hc : objE cur = Except.ok oCur) (hn : objE nb = Except.ok oNb)
    (hov : expOv (-(oCur - oNb) / temp) = true) :
    acceptNeighborE objE temp expOv dec cur nb = Except.ok true := by
  rw [neg_sub] at hov
  unfold acceptNeighborE
  simp [hc, hn, htemp, hov]

theorem acceptNeighborE_zeroDiv {S : Type} (objE : S → Except PyExc ℚ)
    (expOv : ℚ → Bool) (dec : ℚ → Bool) (cur nb : S) (oCur oNb : ℚ)
    (hc : objE cur = Except.ok oCur) (hn : objE nb = Except.ok oNb) :
    acceptNeighborE objE 0 expOv dec cur nb = Except.error PyExc.zeroDivisionError := by
  unfold acceptNeighborE
  simp [hc, hn]

theorem acceptNeighborE_objOverflow {S : Type} (objE : S → Except PyExc ℚ) (temp : ℚ)
    (expOv : ℚ → Bool) (dec : ℚ → Bool) (cur nb : S)
    (hc : objE cur = Except.error PyExc.overflowError) :
    acceptNeighborE objE temp expOv dec cur nb = Except.ok true := by
  unfold acceptNeighborE
  simp [hc]

theorem acceptNeighborE_isOk {S : Type} (objE : S → Except PyExc ℚ) (temp : ℚ)
    (expOv : ℚ → Bool) (dec : ℚ → Bool) (cur nb : S) (htemp : temp ≠ 0)
    (h : ∀ s, (objE s).isOk = true) :
    ∃ b, acceptNeighborE objE temp expOv dec cur nb = Except.ok b := by
  obtain ⟨oc, hc⟩ := exceptIsOk_exists _ (h cur)
  obtain ⟨onb, hn⟩ := exceptIsOk_exists _ (h nb)
  unfold acceptNeighborE
  by_cases hov : expOv ((onb - oc) / temp) = true
  · exact ⟨true, by simp [hc, hn, htemp, hov]⟩
  · exact ⟨dec ((onb - oc) / temp), by simp [hc, hn, htemp, hov]⟩

theorem seedStepE_isOk {S : Type} (objE : S → Except PyExc ℚ)
    (h : ∀ s, (objE s).isOk = true) (st : SeedSt S) (p : S) :
    ∃ st1, seedStepE objE st p = Except.ok st1 := by
  obtain ⟨co, hc⟩ := exceptIsOk_exists _ (h p)
  unfold seedStepE
  simp only [hc]
  split
  · exact ⟨_, rfl⟩
  · exact ⟨_, rfl⟩

theorem seedLoopE_isOk {S : Type} (objE : S → Except PyExc ℚ)
    (h : ∀ s, (objE s).isOk = true) :
    ∀ (l : List S) (st : SeedSt S), ∃ st1, seedLoopE objE l st = Except.ok st1 := by
  intro l
  induction l with
  | nil => intro st; exact ⟨st, rfl⟩
  | cons p ps ih =>
    intro st
    obtain ⟨st1, h1⟩ := seedStepE_isOk objE h st p
    obtain ⟨st2, h2⟩ := ih st1
    exact ⟨st2, by simp [seedLoopE, h1, h2]⟩

theorem sampleLoopE_isOk {S : Type} (objE : S → Except PyExc ℚ)
    (randomE : ℕ → Except PyExc S)
    (h : ∀ s, (objE s).isOk = true) (hr : ∀ n, (randomE n).isOk = true) :
    ∀ (fuel n : ℕ) (st : SeedSt S),
      ∃ st1, sampleLoopE objE randomE fuel n st = Except.ok st1 := by
  intro fuel
  induction fuel with
  | zero => intro n st; exact ⟨st, rfl⟩
  | succ fuel ih =>
    intro n st
    obtain ⟨p, hp⟩ := exceptIsOk_exists _ (hr n)
    obtain ⟨st1, h1⟩ := seedStepE_isOk objE h st p
    obtain ⟨st2, h2⟩ := ih (n + 1) st1
    exact ⟨st2, by simp [sampleLoopE, hp, h1, h2]⟩

theorem seedPhaseE_isOk {S : Type} (P : Params S) (OE : OraclesE S)
    (h : ∀ s, (OE.objectiveE s).isOk = true) (hr : ∀ n, (OE.randomE n).isOk = true) :
    ∃ st1, seedPhaseE P OE = Except.ok st1 := by
  unfold seedPhaseE
  split
  next => exact seedLoopE_isOk OE.objectiveE h P.points_to_evaluate _
  next =>
    split
    next => exact sampleLoopE_isOk OE.objectiveE OE.randomE h hr P.n_samples.toNat 0 _
    next =>
      obtain ⟨co, hc⟩ := exceptIsOk_exists _ (h P.initial_state)
      rw [hc]
      exact ⟨_, rfl⟩

theorem climbLoopE_isOk {S : Type} (OE : OraclesE S) (temp : ℚ) (maxObj : Option ℚ)
    (htemp : temp ≠ 0)
    (hobj : ∀ s, (OE.objectiveE s).isOk = true)
    (hnb : ∀ i s, (OE.neighborE i s).isOk = true) :
    ∀ (fuel i : ℕ) (cur : S) (bst : Option S) (bobj : WithBot ℚ) (steps : ℕ),
      ∃ r, climbLoopE OE temp maxObj fuel i cur bst bobj steps = Except.ok r := by
  intro fuel
  induction fuel with
  | zero => intro i cur bst bobj steps; exact ⟨_, rfl⟩
  | succ fuel ih =>
    intro i cur bst bobj steps
    obtain ⟨nb, h1⟩ := exceptIsOk_exists _ (hnb i cur)
    obtain ⟨acc, h2⟩ := acceptNeighborE_isOk OE.objectiveE temp OE.expOverflows
      (OE.decision i) cur nb htemp hobj
    obtain ⟨oNew, h3⟩ := exceptIsOk_exists _ (hobj (if acc then nb else cur))
    by_cases htgt : targetTest maxObj
        (if bestUpdateTest oNew bobj then ((oNew : ℚ) : WithBot ℚ) else bobj) = true
    · exact ⟨(if acc = true then nb else cur,
        if bestUpdateTest oNew bobj = true then some (if acc = true then nb else cur) else bst,
        if bestUpdateTest oNew bobj = true then ((oNew : ℚ) : WithBot ℚ) else bobj,
        steps + 1, Outcome.reachedMaxObjective),
        by simp [climbLoopE, h1, h2, h3, if_pos htgt]⟩
    · obtain ⟨r, hrec⟩ := ih (i + 1) (if acc then nb else cur)
        (if bestUpdateTest oNew bobj then some (if acc then nb else cur) else bst)
        (if bestUpdateTest oNew bobj then ((oNew : ℚ) : WithBot ℚ) else bobj) (steps + 1)
      exact ⟨r, by simp [climbLoopE, h1, h2, h3, if_neg htgt, hrec]⟩

theorem runE_isOk {S : Type} (P : Params S) (OE : OraclesE S)
    (htemp : P.temp ≠ 0)
    (hobj : ∀ s, (OE.objectiveE s).isOk = true)
    (hnb : ∀ i s, (OE.neighborE i s).isOk = true)
    (hr : ∀ n, (OE.randomE n).isOk = true) :
    (runE P OE).isOk = true := by
  obtain ⟨st1, h1⟩ := seedPhaseE_isOk P OE hobj hr
  unfold runE
  simp only [h1]
  cases hc : st1.current_state with
  | none => rfl
  | some cur =>
    obtain ⟨r, hrec⟩ := climbLoopE_isOk OE P.temp P.max_objective htemp hobj hnb
      (climbBudget P) 0 cur st1.best_state st1.best_objective 0
    simp only [hrec]
    rfl

theorem climbLoopA_sep (AO : AddrOracles) (maxObj : Option ℚ) :
    ∀ (fuel i : ℕ) (mem : ℕ → ℚ) (nxt cur : ℕ) (bst : Option ℕ) (bobj : WithBot ℚ)
        (steps : ℕ),
      cur < nxt →
      (∀ b, bst = some b → b < nxt ∧ b ≠ cur) →
      ∀ b, (climbLoopA AO maxObj fuel i mem nxt cur bst bobj steps).best_state = some b →
        ∀ c2, (climbLoopA AO maxObj fuel i mem nxt cur bst bobj steps).current_state
              = some c2 →
          b ≠ c2 := by
  intro fuel
  induction fuel with
  | zero =>
    intro i mem nxt cur bst bobj steps hcur hb b hbs c2 hc2
    cases hc2
    exact (hb b hbs).2
  | succ fuel ih =>
    intro i mem nxt cur bst bobj steps hcur hb
    simp only [climbLoopA]
    cases ha : AO.accept i with
    | true =>
      simp only [reduceIte]
      by_cases hupd :
          bestUpdateTest (memSet mem nxt (AO.neighborVal i) nxt) bobj = true
      · simp only [if_pos hupd]
        by_cases htgt : targetTest maxObj
            ((memSet mem nxt (AO.neighborVal i) nxt : ℚ) : WithBot ℚ) = true
        · simp only [if_pos htgt]
          intro b hbs c2 hc2
          cases hbs
          cases hc2
          omega
        · simp only [if_neg htgt]
          refine ih (i + 1) _ _ _ _ _ (steps + 1) (by omega) ?_
          intro b hd
          cases hd
          omega
      · simp only [if_neg hupd]
        by_cases htgt : targetTest maxObj bobj = true
        · simp only [if_pos htgt]
          intro b hbs c2 hc2
          cases hc2
          have := hb b hbs
          omega
        · simp only [if_neg htgt]
          refine ih (i + 1) _ _ _ _ _ (steps + 1) (by omega) ?_
          intro b hd
          have := hb b hd
          omega
    | false =>
      simp only [Bool.false_eq_true, reduceIte]
      by_cases hupd :
          bestUpdateTest (memSet mem nxt (AO.neighborVal i) cur) bobj = true
      · simp only [if_pos hupd]
        by_cases htgt : targetTest maxObj
            ((memSet mem nxt (AO.neighborVal i) cur : ℚ) : WithBot ℚ) = true
        · simp only [if_pos htgt]
          intro b hbs c2 hc2
          cases hbs
          cases hc2
          omega
        · simp only [if_neg htgt]
          refine ih (i + 1) _ _ _ _ _ (steps + 1) (by omega) ?_
          intro b hd
          cases hd
          omega
      · simp only [if_neg hupd]
        by_cases htgt : targetTest maxObj bobj = true
        · simp only [if_pos htgt]
          intro b hbs c2 hc2
          cases hc2
          have := hb b hbs
          omega
        · simp only [if_neg htgt]
          refine ih (i + 1) _ _ _ _ _ (steps + 1) (by omega) ?_
          intro b hd
          have := hb b hd
          omega

/-- C8 counterexample: in the seed-points phase, line 136 records the best
as `self.best_state = self.current_state` — a reference to the very same
object, with no copy.  At address level, a run whose single seed point
lives at address 0 ends with `best_state` and `current_state` holding the
SAME address 0, so the recorded best is not an independent copy: an
in-place mutation of the object referenced by `current_state` would be
visible through `best_state`. -/
theorem claim_C8_counterexample :
    (runAddr ⟨0, [0], 2, none, 1⟩ (fun _ => 5) 1
        ⟨fun _ => 0, fun _ => 0, fun _ => true⟩).best_state = some 0 ∧
    (runAddr ⟨0, [0], 2, none, 1⟩ (fun _ => 5) 1
        ⟨fun _ => 0, fun _ => 0, fun _ => true⟩).current_state = some 0 ∧
    (runAddr ⟨0, [0], 2, none, 1⟩ (fun _ => 5) 1
        ⟨fun _ => 0, fun _ => 0, fun _ => true⟩).best_objective
      = ((5 : ℚ) : WithBot ℚ) := by decide

/-- C8 amended: only the climbing phase stores the best as a deep copy
(line 165 allocates an independent object), so on the default seeding path
— where the best can only ever be recorded by climbing-phase updates — the
final `best_state` never aliases `current_state`.  The seed-points and
sampling phases instead record the best by reference (lines 136 and 144),
aliasing `current_state` at the moment of recording, as the counterexample
shows; rebinding `current_state` to another object still leaves
`best_state` unchanged, but in-place mutation of the aliased object would
not. -/
theorem claim_C8 (AP : AddrParams) (mem0 : ℕ → ℚ) (base : ℕ) (AO : AddrOracles)
    (hpts : AP.points = []) (hns : ¬ 1 < AP.n_samples) (hinit : AP.initialAddr < base) :
    ∀ b, (runAddr AP mem0 base AO).best_state = some b →
      (runAddr AP mem0 base AO).current_state ≠ some b := by
  intro b hbs hc2
  revert hbs hc2
  simp only [runAddr, hpts]
  rw [if_neg (by simp), if_neg hns]
  intro hbs hc2
  exact climbLoopA_sep AO AP.max_objective _ 0 mem0 base AP.initialAddr none
    ((mem0 AP.initialAddr : ℚ) : WithBot ℚ) 0 hinit
    (fun d hd => Option.noConfusion hd) b hbs b hc2 rfl

theorem claim_C8_witness :
    (runAddr ⟨0, [], 3, none, 1⟩ (fun _ => 0) 1
        ⟨fun _ => 0, fun _ => 1, fun _ => true⟩).best_state = some 2 ∧
    (runAddr ⟨0, [], 3, none, 1⟩ (fun _ => 0) 1
        ⟨fun _ => 0, fun _ => 1, fun _ => true⟩).current_state ≠ some 2 :=
  ⟨by decide,
    claim_C8 ⟨0, [], 3, none, 1⟩ (fun _ => 0) 1 ⟨fun _ => 0, fun _ => 1, fun _ => true⟩
      rfl (by decide) (by decide) 2 (by decide)⟩

/-- C6 counterexample: the constructor validates `temp = 0.0` (it only
checks that the temperature is numeric, see C5), and with a zero
temperature the division of line 111 raises `ZeroDivisionError`, which
`except OverflowError` (line 115) does NOT catch: a run over a problem
model whose three operations never raise still terminates with an
engine-raised `ZeroDivisionError`, falsifying "the only exceptions run
can raise are those raised by the Problem Model's three operations". -/
theorem claim_C6_counterexample :
    (hcInit (0 : ℤ) (PyVal.pfloat 0) (PyVal.pint 2) PyVal.pnone 1
        ([] : List ℤ)).isOk = true ∧
    runE (⟨(0 : ℤ), 0, 2, none, 1, []⟩ : Params ℤ)
        ⟨fun _ => Except.ok 0, fun _ s => Except.ok s, fun _ => Except.ok 0,
          fun _ => false, fun _ _ => true⟩
      = Except.error PyExc.zeroDivisionError :=
  ⟨by decide, rfl⟩

/-- C6 amended: for every nonzero temperature the claim holds as stated —
the `try` block of `_accept_neighbor` (lines 109-116) wraps the whole
acceptance-probability computation, so (1) the acceptance test never lets
an `OverflowError` escape (for any temperature); (2) with `temp ≠ 0` any
exception it raises is exactly one raised by `_objective`, propagated
unmodified; (3) with `temp ≠ 0` an overflowing `exp` exponent yields
`accept = True`, not an exception; and (5) with `temp ≠ 0`, when the
problem model's three operations never raise, `run` never raises.  The
one exception to the claim is the validated-but-degenerate `temp = 0`:
(4) there the division of line 111 raises `ZeroDivisionError`, which the
`except OverflowError` clause does not catch, and it escapes `run` as an
engine-raised exception (see the counterexample). -/
theorem claim_C6 {S : Type} :
    (∀ (objE : S → Except PyExc ℚ) (temp : ℚ) (expOv dec : ℚ → Bool) (cur nb : S),
      acceptNeighborE objE temp expOv dec cur nb ≠ Except.error PyExc.overflowError) ∧
    (∀ (objE : S → Except PyExc ℚ) (temp : ℚ) (expOv dec : ℚ → Bool) (cur nb : S),
      temp ≠ 0 → ∀ e : PyExc,
      acceptNeighborE objE temp expOv dec cur nb = Except.error e →
      objE cur = Except.error e ∨ objE nb = Except.error e) ∧
    (∀ (objE : S → Except PyExc ℚ) (temp : ℚ) (expOv dec : ℚ → Bool) (cur nb : S)
        (oCur oNb : ℚ), temp ≠ 0 →
      objE cur = Except.ok oCur → objE nb = Except.ok oNb →
      expOv (-(oCur - oNb) / temp) = true →
      acceptNeighborE objE temp expOv dec cur nb = Except.ok true) ∧
    (∀ (objE : S → Except PyExc ℚ) (expOv dec : ℚ → Bool) (cur nb : S)
        (oCur oNb : ℚ),
      objE cur = Except.ok oCur → objE nb = Except.ok oNb →
      acceptNeighborE objE 0 expOv dec cur nb
        = Except.error PyExc.zeroDivisionError) ∧
    (∀ (P : Params S) (OE : OraclesE S), P.temp ≠ 0 →
      (∀ s, (OE.objectiveE s).isOk = true) →
      (∀ i s, (OE.neighborE i s).isOk = true) →
      (∀ n, (OE.randomE n).isOk = true) →
      (runE P OE).isOk = true) :=
  ⟨acceptNeighborE_not_overflow,
    fun objE temp expOv dec cur nb htemp =>
      acceptNeighborE_propagates objE temp expOv dec cur nb htemp,
    fun objE temp expOv dec cur nb oCur oNb htemp =>
      acceptNeighborE_overflow_accepts objE temp expOv dec cur nb oCur oNb htemp,
    acceptNeighborE_zeroDiv,
    runE_isOk⟩

theorem claim_C6_witness :
    acceptNeighborE (fun _ : ℤ => Except.ok 0) 1 (fun _ => true) (fun _ => false) 0 1
      = Except.ok true ∧
    acceptNeighborE (fun _ : ℤ => Except.ok 0) 0 (fun _ => true) (fun _ => false) 0 1
      = Except.error PyExc.zeroDivisionError ∧
    (runE (⟨(0 : ℤ), 1, 2, none, 1, []⟩ : Params ℤ)
        ⟨fun _ => Except.ok 0, fun _ s => Except.ok s, fun _ => Except.ok 0,
          fun _ => false, fun _ _ => true⟩).isOk = true :=
  ⟨(@claim_C6 ℤ).2.2.1 (fun _ => Except.ok 0) 1 (fun _ => true) (fun _ => false)
      0 1 0 0 (by norm_num) rfl rfl rfl,
    (@claim_C6 ℤ).2.2.2.1 (fun _ => Except.ok 0) (fun _ => true) (fun _ => false)
      0 1 0 0 rfl rfl,
    (@claim_C6 ℤ).2.2.2.2 (⟨(0 : ℤ), 1, 2, none, 1, []⟩ : Params ℤ)
      ⟨fun _ => Except.ok 0, fun _ s => Except.ok s, fun _ => Except.ok 0,
        fun _ => false, fun _ _ => true⟩
      (by norm_num) (fun _ => rfl) (fun _ _ => rfl) (fun _ => rfl)⟩

/-- C7 counterexample: a strictly negative `best_objective` IS improved
upon by a negative candidate, because Python's `or` falls back to `0` only
for a falsy (zero) float, and a negative float is truthy.  With one seed
point of objective `-5`, a zero climbing budget leaves
`best_objective = -5`; adding one climbing iteration whose accepted
neighbor has objective `-3` (still negative) updates the best to `-3`,
while the claim says no update can happen before a non-negative candidate
appears. -/
theorem claim_C7_counterexample :
    (run (⟨(0 : ℤ), 1, 2, none, 1, [0]⟩ : Params ℤ)
        ⟨fun s => if s = 0 then (-5 : ℚ) else (-3 : ℚ), fun _ _ => 1, fun _ => 0,
          fun _ _ _ => true⟩).best_objective = (((-5 : ℚ) : ℚ) : WithBot ℚ) ∧
    (run (⟨(0 : ℤ), 1, 3, none, 1, [0]⟩ : Params ℤ)
        ⟨fun s => if s = 0 then (-5 : ℚ) else (-3 : ℚ), fun _ _ => 1, fun _ => 0,
          fun _ _ _ => true⟩).best_objective = (((-3 : ℚ) : ℚ) : WithBot ℚ) ∧
    ((-5 : ℚ) < 0 ∧ (-3 : ℚ) < 0) := by decide

/-- C7 amended: the `or 0` fallback in the line-163 comparison never
changes its outcome: a strictly negative `best_objective` is truthy in
Python, so the comparison uses it directly and any candidate with a
strictly greater objective (negative or not) updates the best; the
fallback applies only when `best_objective` is exactly `0`, where
comparing against the fallback `0` and against `best_objective` coincide. -/
theorem claim_C7 (b q : ℚ) (hb : b < 0) :
    pyOr0 ((b : ℚ) : WithBot ℚ) = ((b : ℚ) : WithBot ℚ) ∧
    (bestUpdateTest q ((b : ℚ) : WithBot ℚ) = true ↔ b < q) := by
  refine ⟨pyOr0_eq _, ?_⟩
  rw [bestUpdateTest_iff]
  exact WithBot.coe_lt_coe

theorem claim_C7_witness :
    bestUpdateTest (-3) (((-5 : ℚ) : ℚ) : WithBot ℚ) = true :=
  (claim_C7 (-5) (-3) (by norm_num)).2.mpr (by norm_num)

/-- C10: the truthiness fallback `(best_objective or 0)` is the identity on
every value `best_objective` can hold during a run (`float('-inf')` or a
previously evaluated float — never `None`, which `WithBot ℚ` reflects):
a falsy `0.0` is replaced by `0`, which compares identically.
Consequently `run` with the two fallback comparisons of lines 163 and 167
is extensionally equal to the spec-worded `runSpecDirect` that compares
against `best_objective` directly. -/
theorem claim_C10 :
    (∀ b : WithBot ℚ, pyOr0 b = b) ∧
    (∀ (S : Type) (P : Params S) (O : Oracles S), run P O = runSpecDirect P O) :=
  ⟨pyOr0_eq, fun _ P O => run_eq_runSpecDirect P O⟩

end StochasticHillClimb
